import Mathlib

/-!
Verification of the grade/GPA computation and persistence contracts of the
VIT result-management applications (a Streamlit app, a Flask app, and a
bookstore app).  Numeric values are embedded as exact rationals `ℚ`; the
document collections are embedded as Lean lists of records in natural
(insertion) order, with the MongoDB operations `find_one`, `update_one`,
`insert_one`, `delete_one`, `delete_many` modelled as list traversals that
act on the first matching document, as the driver does.
-/

namespace VitResults

/-- From `vit_result_system.py`, `calculate_grade`: grade from total marks
(total already on the 100 scale). -/
def calculate_grade (total : ℚ) : String :=
  if total ≥ 90 then "A+"
  else if total ≥ 80 then "A"
  else if total ≥ 70 then "B+"
  else if total ≥ 60 then "B"
  else if total ≥ 50 then "C"
  else "F"

/-- Grade plus grade-point, as returned by the JS `calculateGrade` in
`VIT-result-th.py`. -/
structure GradeInfo where
  grade : String
  gpa : ℕ
  deriving DecidableEq, Repr

/-- From `VIT-result-th.py`, JS `calculateGrade(marks)`. -/
def calculateGrade (marks : ℚ) : GradeInfo :=
  if marks ≥ 90 then ⟨"A+", 10⟩
  else if marks ≥ 80 then ⟨"A", 9⟩
  else if marks ≥ 70 then ⟨"B+", 8⟩
  else if marks ≥ 60 then ⟨"B", 7⟩
  else if marks ≥ 50 then ⟨"C", 6⟩
  else ⟨"F", 0⟩

/-- The grade-point value of each letter grade (the `gpa` column of the
`calculateGrade` table); used to order the grade bands. -/
def grade_point (g : String) : ℕ :=
  if g = "A+" then 10
  else if g = "A" then 9
  else if g = "B+" then 8
  else if g = "B" then 7
  else if g = "C" then 6
  else 0

/-- Modelled from the spec: the reference step function with inclusive
lower bounds evaluated highest-first
(≥90→A+, ≥80→A, ≥70→B+, ≥60→B, ≥50→C, else F). -/
def gradeOf_spec (total : ℚ) : String :=
  if 90 ≤ total then "A+"
  else if 80 ≤ total then "A"
  else if 70 ≤ total then "B+"
  else if 60 ≤ total then "B"
  else if 50 ≤ total then "C"
  else "F"

/-- C1: `calculate_grade` agrees everywhere with the spec's reference step
function (inclusive lower bounds, evaluated highest-first); in particular
`gradeOf 90 = A+`, `gradeOf 89.99 = A`, `gradeOf 50 = C`, `gradeOf 49.99 = F`;
and the grade band (measured by its grade-point) is non-decreasing in the
total over `[0, 100)`. -/
theorem grade_step_function_correct :
    (∀ t : ℚ, calculate_grade t = gradeOf_spec t) ∧
    calculate_grade 90 = "A+" ∧ calculate_grade (8999/100) = "A" ∧
    calculate_grade 50 = "C" ∧ calculate_grade (4999/100) = "F" ∧
    ∀ t₁ t₂ : ℚ, 0 ≤ t₁ → t₁ ≤ t₂ → t₂ < 100 →
      grade_point (calculate_grade t₁) ≤ grade_point (calculate_grade t₂) := by
  refine ⟨fun t => rfl, by decide, by norm_num [calculate_grade],
    by decide, by norm_num [calculate_grade], ?_⟩
  intro t₁ t₂ h0 h12 h100
  unfold calculate_grade
  split_ifs <;> simp [grade_point] <;> linarith

/-- Witness for C1 at concrete inputs. -/
theorem grade_step_function_correct_witness :
    calculate_grade 90 = "A+" ∧
    grade_point (calculate_grade 55) ≤ grade_point (calculate_grade 77) :=
  ⟨grade_step_function_correct.2.1,
    grade_step_function_correct.2.2.2.2.2 55 77 (by decide) (by decide) (by decide)⟩

/-! ### The aggregation routine of the Flask app (`VIT-result-th.py`)

`updateCalculations` walks over all subject cards, computes each subject's
weighted total, letter grade and grade-point, accumulates the grade-point sum
and subject count, records whether any subject got an `F`, and finally
reports the CGPA (two-decimal display rounding via `toFixed(2)`, `0.00` for
an empty list) and the Pass/Fail status.  A subject whose marks are out of
the `[0, 100]` range is skipped (the JS callback returns early for it). -/

/-- From `VIT-result-th.py`, JS `calculateTotal(mse, ese)`: weighted total,
30% of MSE plus 70% of ESE. -/
def calculateTotal (mse ese : ℚ) : ℚ := mse * (3/10) + ese * (7/10)

/-- One subject card's numeric inputs (`.mse-marks`, `.ese-marks`). -/
structure SubjectEntry where
  mse : ℚ
  ese : ℚ
  deriving DecidableEq

/-- Accumulator of the `forEach` loop in `updateCalculations`. -/
structure CalcAcc where
  totalGPA : ℕ
  subjectCount : ℕ
  hasFailed : Bool
  deriving DecidableEq

/-- One iteration of the `forEach` body of `updateCalculations`. -/
def updateCalcStep (acc : CalcAcc) (s : SubjectEntry) : CalcAcc :=
  if s.mse < 0 ∨ s.ese < 0 ∨ s.mse > 100 ∨ s.ese > 100 then acc
  else
    let gradeInfo := calculateGrade (calculateTotal s.mse s.ese)
    { totalGPA := acc.totalGPA + gradeInfo.gpa,
      subjectCount := acc.subjectCount + 1,
      hasFailed := acc.hasFailed || (gradeInfo.grade == "F") }

/-- JS `Number.prototype.toFixed(2)` on exact rationals: round to the nearest
two-decimal value, taking the larger candidate on ties. -/
def jsToFixed2 (q : ℚ) : ℚ := (round (q * 100) : ℤ) / 100

/-- From `VIT-result-th.py`, JS `updateCalculations()`: returns the displayed
`(cgpa, status)` pair. -/
def updateCalculations (subjects : List SubjectEntry) : ℚ × String :=
  let acc := subjects.foldl updateCalcStep ⟨0, 0, false⟩
  let cgpa : ℚ :=
    if acc.subjectCount > 0 then jsToFixed2 ((acc.totalGPA : ℚ) / acc.subjectCount) else 0
  let status := if acc.hasFailed then "Fail" else "Pass"
  (cgpa, status)

lemma foldl_hasFailed_iff (subjects : List SubjectEntry) (acc : CalcAcc)
    (hvalid : ∀ s ∈ subjects, 0 ≤ s.mse ∧ s.mse ≤ 100 ∧ 0 ≤ s.ese ∧ s.ese ≤ 100) :
    (subjects.foldl updateCalcStep acc).hasFailed = true ↔
      (acc.hasFailed = true ∨
        ∃ s ∈ subjects, (calculateGrade (calculateTotal s.mse s.ese)).grade = "F") := by
  induction subjects generalizing acc with
  | nil => simp
  | cons s rest ih =>
    have hs := hvalid s (List.mem_cons_self s rest)
    have hrest : ∀ x ∈ rest, 0 ≤ x.mse ∧ x.mse ≤ 100 ∧ 0 ≤ x.ese ∧ x.ese ≤ 100 :=
      fun x hx => hvalid x (List.mem_cons_of_mem s hx)
    rw [List.foldl_cons]
    rw [show updateCalcStep acc s =
      { totalGPA := acc.totalGPA + (calculateGrade (calculateTotal s.mse s.ese)).gpa,
        subjectCount := acc.subjectCount + 1,
        hasFailed := acc.hasFailed || ((calculateGrade (calculateTotal s.mse s.ese)).grade == "F") }
      from by
        unfold updateCalcStep
        rw [if_neg]
        push_neg
        exact ⟨hs.1, hs.2.2.1, hs.2.1, hs.2.2.2⟩]
    rw [ih _ hrest]
    simp only [Bool.or_eq_true, beq_iff_eq, List.mem_cons]
    constructor
    · rintro (((h | h) | ⟨x, hx, hpx⟩))
      · exact Or.inl h
      · exact Or.inr ⟨s, Or.inl rfl, h⟩
      · exact Or.inr ⟨x, Or.inr hx, hpx⟩
    · rintro (h | ⟨x, (rfl | hx), hpx⟩)
      · exact Or.inl (Or.inl h)
      · exact Or.inl (Or.inr hpx)
      · exact Or.inr ⟨x, hx, hpx⟩

/-- C2: for in-range marks, the reported status is `Fail` exactly when some
subject's computed grade is the failing band `F` (a logical OR across all
subjects, independent of the average), and the status is `Pass` otherwise. -/
theorem status_fail_iff_any_F (subjects : List SubjectEntry)
    (hvalid : ∀ s ∈ subjects, 0 ≤ s.mse ∧ s.mse ≤ 100 ∧ 0 ≤ s.ese ∧ s.ese ≤ 100) :
    ((updateCalculations subjects).2 = "Fail" ↔
      ∃ s ∈ subjects, (calculateGrade (calculateTotal s.mse s.ese)).grade = "F") ∧
    ((updateCalculations subjects).2 ≠ "Fail" → (updateCalculations subjects).2 = "Pass") := by
  have key := foldl_hasFailed_iff subjects ⟨0, 0, false⟩ hvalid
  simp only [Bool.false_eq_true, false_or] at key
  have h2 : (updateCalculations subjects).2
      = if (subjects.foldl updateCalcStep ⟨0, 0, false⟩).hasFailed then "Fail" else "Pass" := rfl
  rw [h2]
  cases hf : (subjects.foldl updateCalcStep ⟨0, 0, false⟩).hasFailed with
  | false =>
    rw [hf] at key
    rw [if_neg (by decide : ¬ (false = true))]
    exact ⟨⟨fun habs => absurd habs (by decide),
      fun hex => absurd (key.mpr hex) (by decide)⟩, fun _ => rfl⟩
  | true =>
    rw [hf] at key
    rw [if_pos rfl]
    exact ⟨⟨fun _ => key.mp rfl, fun _ => rfl⟩, fun h => absurd rfl h⟩

/-- Witness for C2: one failing and one A-grade subject give status `Fail`. -/
theorem status_fail_iff_any_F_witness :
    (updateCalculations [⟨10, 20⟩, ⟨80, 80⟩]).2 = "Fail" :=
  (status_fail_iff_any_F [⟨10, 20⟩, ⟨80, 80⟩] (by decide)).1.mpr
    ⟨⟨10, 20⟩, by decide, by norm_num [calculateTotal, calculateGrade]⟩

/-- C5: aggregating an empty subject list reports CGPA 0 and status `Pass`. -/
theorem aggregate_empty_pass : updateCalculations [] = (0, "Pass") := by
  simp [updateCalculations]

/-! ### The Flask app's result collection (`VIT-result-th.py`)

The `students_results` collection is modelled as a list of records in
insertion order.  `find_one`/`update_one` act on the first matching
document, `insert_one` appends. -/

/-- A document of the `students_results` collection (the `result_data`
dictionary built by `save_result`; `created_at` is an abstract timestamp). -/
structure ResultRecord where
  student_name : String
  roll_number : String
  subjects_json : String
  cgpa : ℚ
  status : String
  created_at : ℕ
  deriving DecidableEq

/-- `collection.find_one({'roll_number': roll})`: first document with the
given roll number. -/
def result_find_one (store : List ResultRecord) (roll : String) : Option ResultRecord :=
  store.find? fun x => x.roll_number == roll

/-- `collection.update_one({'roll_number': roll}, {'$set': result_data})`:
replace every field of the first matching document (the `$set` lists all
fields of the record). -/
def result_update_one : List ResultRecord → String → ResultRecord → List ResultRecord
  | [], _, _ => []
  | x :: xs, roll, r =>
    if x.roll_number == roll then r :: xs
    else x :: result_update_one xs roll r

/-- From `VIT-result-th.py`, route `save_result`: update in place when the
roll number already exists, insert otherwise. -/
def save_result (store : List ResultRecord) (r : ResultRecord) : List ResultRecord :=
  match result_find_one store r.roll_number with
  | some _ => result_update_one store r.roll_number r
  | none => store ++ [r]

lemma save_result_cons_ne (x : ResultRecord) (xs : List ResultRecord) (r : ResultRecord)
    (hb : (x.roll_number == r.roll_number) = false) :
    save_result (x :: xs) r = x :: save_result xs r := by
  unfold save_result result_find_one
  rw [List.find?_cons_of_neg _ (by simp [hb])]
  cases hfind : List.find? (fun y => y.roll_number == r.roll_number) xs with
  | none => simp
  | some y => simp [result_update_one, hb]

lemma save_result_filter (store : List ResultRecord) (r : ResultRecord)
    (h : (store.filter fun x => x.roll_number == r.roll_number).length ≤ 1) :
    (save_result store r).filter (fun x => x.roll_number == r.roll_number) = [r] := by
  induction store with
  | nil => simp [save_result, result_find_one]
  | cons x xs ih =>
    by_cases hb : (x.roll_number == r.roll_number) = true
    · have hsave : save_result (x :: xs) r = r :: xs := by
        unfold save_result result_find_one
        rw [List.find?_cons_of_pos (p := fun y : ResultRecord => y.roll_number == r.roll_number) _ hb]
        simp [result_update_one, hb]
      have hfx : (xs.filter fun y => y.roll_number == r.roll_number) = [] := by
        rw [List.filter_cons_of_pos (p := fun y : ResultRecord => y.roll_number == r.roll_number) hb] at h
        simp only [List.length_cons] at h
        exact List.length_eq_zero.mp (by omega)
      rw [hsave, List.filter_cons_of_pos (p := fun y : ResultRecord => y.roll_number == r.roll_number) (by simp),
        hfx]
    · have hb' : (x.roll_number == r.roll_number) = false := by
        simpa using hb
      rw [save_result_cons_ne x xs r hb', List.filter_cons_of_neg (by simp [hb'])]
      rw [List.filter_cons_of_neg (by simp [hb'])] at h
      exact ih h

/-- C3: submitting the same record twice through `save_result` leaves exactly
one stored record for its roll number, with exactly the submitted fields
(given the unique-index invariant that the key occurs at most once). -/
theorem save_result_upsert_idempotent (store : List ResultRecord) (r : ResultRecord)
    (h : (store.filter fun x => x.roll_number == r.roll_number).length ≤ 1) :
    (save_result (save_result store r) r).filter (fun x => x.roll_number == r.roll_number)
      = [r] := by
  have h1 := save_result_filter store r h
  exact save_result_filter (save_result store r) r (by rw [h1]; simp)

/-- Witness for C3 on a concrete two-record store. -/
theorem save_result_upsert_idempotent_witness :
    ((save_result (save_result
        [⟨"Alice", "21AIML001", "[]", 9, "Pass", 1⟩, ⟨"Bob", "21AIML002", "[]", 7, "Pass", 2⟩]
        ⟨"Bob", "21AIML002", "[1]", 8, "Pass", 3⟩)
        ⟨"Bob", "21AIML002", "[1]", 8, "Pass", 3⟩).filter
      (fun x => x.roll_number == (⟨"Bob", "21AIML002", "[1]", 8, "Pass", 3⟩ : ResultRecord).roll_number))
      = [⟨"Bob", "21AIML002", "[1]", 8, "Pass", 3⟩] :=
  save_result_upsert_idempotent
    [⟨"Alice", "21AIML001", "[]", 9, "Pass", 1⟩, ⟨"Bob", "21AIML002", "[]", 7, "Pass", 2⟩]
    ⟨"Bob", "21AIML002", "[1]", 8, "Pass", 3⟩ (by decide)

/-! ### Text search over the result collection (`VIT-result-th.py`)

`search_result` passes the raw user term to a case-insensitive Mongo
`$regex` over `roll_number` and `student_name`.  The matcher below embeds
the regex fragment those terms exercise: literal characters and the `.`
any-character wildcard.  Terms using other PCRE metacharacters (the rest of
`regexMetachars`, which the route would also interpret, or reject as invalid
patterns with an error result) are outside the model, and the amended claim
below is restricted to metacharacter-free terms accordingly. -/

/-- `needle` is a prefix of `hay` (character-by-character comparison). -/
def startsWithL : List Char → List Char → Bool
  | _, [] => true
  | [], _ :: _ => false
  | c :: cs, n :: ns => c == n && startsWithL cs ns

/-- `needle` occurs contiguously somewhere inside `hay`: the substring
containment predicate in which the spec states the search contract. -/
def occursIn (needle : List Char) : List Char → Bool
  | [] => startsWithL [] needle
  | c :: rest => startsWithL (c :: rest) needle || occursIn needle rest

/-- Lower-case the characters of a string (how the `i` regex option treats
the ASCII letters of the stored fields). -/
def lowerChars (s : String) : List Char := s.data.map Char.toLower

/-- The PCRE metacharacters of the `$regex` pattern language; a term free of
all of them is matched purely literally. -/
def regexMetachars : List Char :=
  ['.', '*', '+', '?', '^', '$', '(', ')', '[', ']', '{', '}', '|', '\\']

/-- One element of the modelled regex fragment: a literal character or the
`.` any-character wildcard. -/
inductive PatElem
  | lit (c : Char)
  | dot
  deriving DecidableEq

/-- Read the user's search term as a `$regex` pattern, one element per
character: `.` becomes the wildcard, every other character a literal
(lower-cased for the `i` option). -/
def parsePattern (term : String) : List PatElem :=
  term.data.map fun c => if c = '.' then PatElem.dot else PatElem.lit c.toLower

/-- The pattern matches a prefix of `hay` (`.` matches any character except a
newline, as in PCRE without the `s` option). -/
def matchHere : List PatElem → List Char → Bool
  | [], _ => true
  | _ :: _, [] => false
  | PatElem.lit c :: ps, h :: hs => (h == c) && matchHere ps hs
  | PatElem.dot :: ps, h :: hs => (h != Char.ofNat 10) && matchHere ps hs

/-- The pattern matches at some position of `hay` (unanchored regex search,
as `$regex` performs). -/
def regexSearch (ps : List PatElem) : List Char → Bool
  | [] => matchHere ps []
  | c :: rest => matchHere ps (c :: rest) || regexSearch ps rest

/-- The `$or` filter of `search_result`: the term's pattern matches the roll
number or the student name case-insensitively. -/
def matches_search (search_term : String) (r : ResultRecord) : Bool :=
  regexSearch (parsePattern search_term) (lowerChars r.roll_number)
    || regexSearch (parsePattern search_term) (lowerChars r.student_name)

/-- From `VIT-result-th.py`, route `search_result`: all documents whose roll
number or student name matches the term's regex case-insensitively. -/
def search_result (store : List ResultRecord) (search_term : String) : List ResultRecord :=
  store.filter (matches_search search_term)

lemma startsWithL_iff (needle : List Char) :
    ∀ hay, startsWithL hay needle = true ↔ ∃ rest, hay = needle ++ rest := by
  induction needle with
  | nil =>
    intro hay
    simp [startsWithL.eq_def]
  | cons n ns ih =>
    intro hay
    cases hay with
    | nil => simp [startsWithL]
    | cons c cs =>
      simp only [startsWithL, Bool.and_eq_true, beq_iff_eq, ih, List.cons_append, List.cons.injEq]
      constructor
      · rintro ⟨rfl, rest, rfl⟩
        exact ⟨rest, rfl, rfl⟩
      · rintro ⟨rest, rfl, rfl⟩
        exact ⟨rfl, rest, rfl⟩

lemma occursIn_iff (needle : List Char) :
    ∀ hay, occursIn needle hay = true ↔ ∃ pre post, hay = pre ++ needle ++ post := by
  intro hay
  induction hay with
  | nil =>
    simp only [occursIn, startsWithL_iff]
    constructor
    · rintro ⟨rest, h⟩
      exact ⟨[], rest, h⟩
    · rintro ⟨pre, post, h⟩
      cases pre with
      | nil => exact ⟨post, h⟩
      | cons a as => simp at h
  | cons c rest ih =>
    simp only [occursIn, Bool.or_eq_true, startsWithL_iff, ih]
    constructor
    · rintro (⟨tl, heq⟩ | ⟨pre, post, heq⟩)
      · exact ⟨[], tl, by simp [heq]⟩
      · exact ⟨c :: pre, post, by simp [heq]⟩
    · rintro ⟨pre, post, heq⟩
      cases pre with
      | nil =>
        exact Or.inl ⟨post, by simpa using heq⟩
      | cons a as =>
        simp only [List.cons_append, List.cons.injEq] at heq
        exact Or.inr ⟨as, post, heq.2⟩

/-- C8 counterexample: the route matches the raw term as a regex, so the
metacharacter term `21.IML` (its `.` matching the `A`) returns the record
with roll number `21AIML001`, although the term is not a case-insensitive
substring of the roll number or of the name — the claim over every term is
false of the program. -/
theorem search_result_regex_counterexample :
    (⟨"Alice", "21AIML001", "[]", 9, "Pass", 1⟩ : ResultRecord)
      ∈ search_result [⟨"Alice", "21AIML001", "[]", 9, "Pass", 1⟩] "21.IML" ∧
    ¬((∃ pre post, lowerChars "21AIML001" = pre ++ lowerChars "21.IML" ++ post) ∨
      (∃ pre post, lowerChars "Alice" = pre ++ lowerChars "21.IML" ++ post)) := by
  constructor
  · decide
  · rintro (h | h)
    · exact absurd ((occursIn_iff _ _).mpr h) (by decide)
    · exact absurd ((occursIn_iff _ _).mpr h) (by decide)

lemma parsePattern_of_no_metachars (term : String)
    (h : ∀ c ∈ term.data, c ∉ regexMetachars) :
    parsePattern term = (lowerChars term).map PatElem.lit := by
  unfold parsePattern lowerChars
  rw [List.map_map]
  apply List.map_congr_left
  intro c hc
  have hdot : ¬ c = Char.ofNat 46 := fun he => h c hc (by rw [he]; decide)
  simp only [Function.comp]
  rw [if_neg hdot]

lemma matchHere_lit (needle : List Char) :
    ∀ hay, matchHere (needle.map PatElem.lit) hay = startsWithL hay needle := by
  induction needle with
  | nil =>
    intro hay
    cases hay <;> rfl
  | cons n ns ih =>
    intro hay
    cases hay with
    | nil => rfl
    | cons h hs => simp [matchHere, startsWithL, ih]

lemma regexSearch_lit (needle : List Char) :
    ∀ hay, regexSearch (needle.map PatElem.lit) hay = occursIn needle hay := by
  intro hay
  induction hay with
  | nil => simp [regexSearch, occursIn, matchHere_lit]
  | cons c rest ih => simp [regexSearch, occursIn, matchHere_lit, ih]

/-- C8 amended: for a search term free of regex metacharacters (matched
purely literally by the route's `$regex`), a record is returned by
`search_result` exactly when it is stored and the lower-cased term occurs as
a contiguous substring of its lower-cased roll number or student name. -/
theorem search_result_literal_characterization (store : List ResultRecord) (term : String)
    (r : ResultRecord) (h : ∀ c ∈ term.data, c ∉ regexMetachars) :
    r ∈ search_result store term ↔
      r ∈ store ∧
        ((∃ pre post, lowerChars r.roll_number = pre ++ lowerChars term ++ post) ∨
         (∃ pre post, lowerChars r.student_name = pre ++ lowerChars term ++ post)) := by
  have hp := parsePattern_of_no_metachars term h
  simp [search_result, List.mem_filter, matches_search, hp, regexSearch_lit, occursIn_iff]

/-- Witness for C8 amended: the metacharacter-free term `AIML` finds a record
by its roll number. -/
theorem search_result_literal_characterization_witness :
    (⟨"Alice", "21AIML001", "[]", 9, "Pass", 1⟩ : ResultRecord)
      ∈ search_result [⟨"Alice", "21AIML001", "[]", 9, "Pass", 1⟩] "AIML" :=
  (search_result_literal_characterization _ "AIML" _ (by decide)).mpr
    ⟨List.mem_singleton.mpr rfl, Or.inl ⟨"21".data, "001".data, by decide⟩⟩

/-! ### The Streamlit app's collections (`vit_result_system.py`)

Three collections: `students` (unique `rollNo`), `subjects` (unique `code`)
and `marks` (unique `(studentId, subjectId)` pair).  Timestamps are abstract
naturals. -/

/-- A `students` document. -/
structure Student where
  rollNo : String
  name : String
  email : String
  createdAt : ℕ
  updatedAt : ℕ
  deriving DecidableEq

/-- A `subjects` document. -/
structure Subject where
  subjectName : String
  code : String
  deriving DecidableEq

/-- A `marks` document, as written by `MarkService.add_or_update_marks`. -/
structure MarkRecord where
  studentId : String
  subjectId : String
  mseMarks : ℚ
  eseMarks : ℚ
  total : ℚ
  grade : String
  createdAt : ℕ
  updatedAt : ℕ
  deriving DecidableEq

/-- The students and marks collections together (subjects are read-only for
the operations below and passed separately). -/
structure DBState where
  students : List Student
  marks : List MarkRecord

/-- `students.delete_one({'rollNo': roll})`: remove the first matching
student, returning the new list and the deleted count. -/
def delete_one_student : List Student → String → List Student × ℕ
  | [], _ => ([], 0)
  | s :: rest, roll =>
    if s.rollNo == roll then (rest, 1)
    else
      let res := delete_one_student rest roll
      (s :: res.1, res.2)

/-- From `vit_result_system.py`, `StudentService.delete_student`: delete the
student's marks (`marks.delete_many({'studentId': roll})`), then the student,
and report whether a student document was deleted. -/
def delete_student (db : DBState) (roll_no : String) : DBState × Bool :=
  let marks2 := db.marks.filter fun m => !(m.studentId == roll_no)
  let res := delete_one_student db.students roll_no
  (⟨res.1, marks2⟩, decide (0 < res.2))

lemma delete_one_student_count (l : List Student) (roll : String) :
    0 < (delete_one_student l roll).2 ↔ ∃ s ∈ l, s.rollNo = roll := by
  induction l with
  | nil => simp [delete_one_student]
  | cons s rest ih =>
    by_cases hb : (s.rollNo == roll) = true
    · simp only [delete_one_student, if_pos hb, List.mem_cons]
      exact ⟨fun _ => ⟨s, Or.inl rfl, beq_iff_eq.mp hb⟩, fun _ => Nat.zero_lt_one⟩
    · simp only [delete_one_student, if_neg hb, List.mem_cons, ih]
      constructor
      · rintro ⟨x, hx, hroll⟩
        exact ⟨x, Or.inr hx, hroll⟩
      · rintro ⟨x, (rfl | hx), hroll⟩
        · exact absurd (beq_iff_eq.mpr hroll) hb
        · exact ⟨x, hx, hroll⟩

/-- C6: `delete_student` returns `true` exactly when a student with the given
roll number was stored (and so removed); for a nonexistent key it returns
`false`, not an error. -/
theorem delete_student_bool_iff_exists (db : DBState) (roll_no : String) :
    (delete_student db roll_no).2 = true ↔ ∃ s ∈ db.students, s.rollNo = roll_no := by
  have h : (delete_student db roll_no).2
      = decide (0 < (delete_one_student db.students roll_no).2) := rfl
  rw [h, decide_eq_true_iff]
  exact delete_one_student_count db.students roll_no

/-- Witness for C6: deleting an absent roll number reports `false`, a present
one reports `true`. -/
theorem delete_student_bool_iff_exists_witness :
    (delete_student ⟨[⟨"21AIML001", "Alice", "a@vit.edu", 0, 0⟩], []⟩ "21AIML001").2 = true ∧
    (delete_student ⟨[⟨"21AIML001", "Alice", "a@vit.edu", 0, 0⟩], []⟩ "21AIML002").2 ≠ true :=
  ⟨(delete_student_bool_iff_exists _ _).mpr
      ⟨⟨"21AIML001", "Alice", "a@vit.edu", 0, 0⟩, by simp, rfl⟩,
    fun h => by
      have := (delete_student_bool_iff_exists
        ⟨[⟨"21AIML001", "Alice", "a@vit.edu", 0, 0⟩], []⟩ "21AIML002").mp h
      simp at this⟩

/-- One row of the `get_student_marks` aggregation output (the `$project`
stage). -/
structure MarkView where
  subjectCode : String
  subjectName : String
  mseMarks : ℚ
  eseMarks : ℚ
  total : ℚ
  grade : String
  deriving DecidableEq

/-- The `$lookup` + `$unwind` + `$project` stages: join each mark with every
subject whose `code` equals its `subjectId` (marks without a matching subject
are dropped by `$unwind`). -/
def lookup_unwind (subjects : List Subject) : List MarkRecord → List MarkView
  | [] => []
  | m :: rest =>
    ((subjects.filter fun s => s.code == m.subjectId).map fun s =>
      { subjectCode := m.subjectId, subjectName := s.subjectName,
        mseMarks := m.mseMarks, eseMarks := m.eseMarks,
        total := m.total, grade := m.grade }) ++ lookup_unwind subjects rest

/-- Insertion step of the `$sort {subjectCode: 1}` stage. -/
def insertByCode (v : MarkView) : List MarkView → List MarkView
  | [] => [v]
  | x :: xs =>
    if v.subjectCode ≤ x.subjectCode then v :: x :: xs
    else x :: insertByCode v xs

/-- The `$sort {subjectCode: 1}` stage (insertion sort on the code). -/
def sortByCode : List MarkView → List MarkView
  | [] => []
  | x :: xs => insertByCode x (sortByCode xs)

/-- From `vit_result_system.py`, `MarkService.get_student_marks`: the
aggregation pipeline `$match` on `studentId`, `$lookup` of subjects,
`$unwind`, `$project`, `$sort` by subject code. -/
def get_student_marks (marks : List MarkRecord) (subjects : List Subject)
    (student_id : String) : List MarkView :=
  sortByCode (lookup_unwind subjects (marks.filter fun m => m.studentId == student_id))

/-- C7: after `delete_student`, looking up the marks of that roll number
returns the empty list — the cascade leaves no orphaned mark rows. -/
theorem delete_student_cascades (db : DBState) (roll_no : String)
    (subjects : List Subject) :
    get_student_marks (delete_student db roll_no).1.marks subjects roll_no = [] := by
  have hm : (delete_student db roll_no).1.marks
      = db.marks.filter fun m => !(m.studentId == roll_no) := rfl
  have hfilter :
      ((db.marks.filter fun m => !(m.studentId == roll_no)).filter
        fun m => m.studentId == roll_no) = [] := by
    induction db.marks with
    | nil => simp
    | cons m rest ih =>
      by_cases hb : (m.studentId == roll_no) = true
      · simp [List.filter_cons, hb]
      · simp only [Bool.not_eq_true] at hb
        simp [List.filter_cons, hb]
  rw [get_student_marks, hm, hfilter]
  rfl

/-- Witness for C7 on a concrete database state. -/
theorem delete_student_cascades_witness :
    get_student_marks
      (delete_student
        ⟨[⟨"21AIML001", "Alice", "a@vit.edu", 0, 0⟩],
         [⟨"21AIML001", "ML3001", 20, 60, 80, "A", 0, 0⟩]⟩ "21AIML001").1.marks
      [⟨"Computer Network Technology", "ML3001"⟩] "21AIML001" = [] :=
  delete_student_cascades
    ⟨[⟨"21AIML001", "Alice", "a@vit.edu", 0, 0⟩],
     [⟨"21AIML001", "ML3001", 20, 60, 80, "A", 0, 0⟩]⟩ "21AIML001"
    [⟨"Computer Network Technology", "ML3001"⟩]

/-! ### Mark entry in the Streamlit app (`vit_result_system.py`)

`MarkService.add_or_update_marks` recomputes the per-subject total and grade
and upserts the mark document keyed by `(studentId, subjectId)` using
`$set` for all recomputed fields and `$setOnInsert` for `createdAt`. -/

/-- Python's `round` to an integer: round half to even (banker's rounding)
on exact rationals. -/
def roundHalfEven (q : ℚ) : ℤ :=
  if q - ⌊q⌋ < 1/2 then ⌊q⌋
  else if (1/2 : ℚ) < q - ⌊q⌋ then ⌊q⌋ + 1
  else if ⌊q⌋ % 2 = 0 then ⌊q⌋ else ⌊q⌋ + 1

/-- Python's `round(q, 2)` on exact rationals. -/
def pyRound2 (q : ℚ) : ℚ := (roundHalfEven (q * 100) : ℚ) / 100

/-- The total computed by `add_or_update_marks`:
`(mse / 30) * 30 + (ese / 70) * 70` (the inputs are already on the 30/70
contribution scales). -/
def computed_total (mse ese : ℚ) : ℚ := (mse / 30) * 30 + (ese / 70) * 70

/-- The `total` field stored with the mark document: `round(total, 2)`. -/
def stored_total (mse ese : ℚ) : ℚ := pyRound2 (computed_total mse ese)

/-- The `(studentId, subjectId)` filter of the mark upsert. -/
def mark_matches (m : MarkRecord) (student_id subject_id : String) : Bool :=
  m.studentId == student_id && m.subjectId == subject_id

/-- Applying `{$set: mark}` to an existing document: every field of `mark`
overwrites the stored one, except `createdAt`, which `$setOnInsert` leaves
untouched on an update. -/
def apply_mark_set (old mark : MarkRecord) : MarkRecord :=
  { mark with createdAt := old.createdAt }

/-- `marks.update_one(filter, {$set. mark, $setOnInsert. createdAt}, upsert)`:
update the first matching document in place, or append a fresh document
(whose `createdAt` comes from `$setOnInsert`) when none matches. -/
def mark_update_one : List MarkRecord → String → String → MarkRecord → List MarkRecord
  | [], _, _, mark => [mark]
  | m :: rest, sid, subj, mark =>
    if mark_matches m sid subj then apply_mark_set m mark :: rest
    else m :: mark_update_one rest sid subj mark

/-- From `vit_result_system.py`, `MarkService.add_or_update_marks`
(`now` stands for the `datetime.now()` timestamps). -/
def add_or_update_marks (marks : List MarkRecord) (student_id subject_id : String)
    (mse ese : ℚ) (now : ℕ) : List MarkRecord :=
  let total := computed_total mse ese
  let mark : MarkRecord :=
    { studentId := student_id, subjectId := subject_id,
      mseMarks := mse, eseMarks := ese,
      total := pyRound2 total, grade := calculate_grade total,
      createdAt := now, updatedAt := now }
  mark_update_one marks student_id subject_id mark

/-- C4 counterexample: for the in-range inputs `mse = 0.333`, `ese = 0` the
stored total is the rounded `0.33`, which differs from the exact sum
`0.333 + 0`. -/
theorem stored_total_not_exact :
    stored_total (333/1000) 0 = 33/100 ∧ (33/100 : ℚ) ≠ 333/1000 + 0 := by
  constructor
  · have h : computed_total (333/1000) 0 = 333/1000 := by
      norm_num [computed_total]
    have hfloor : ⌊(333 : ℚ)/10⌋ = 33 := by
      rw [Int.floor_eq_iff]
      norm_num
    rw [stored_total, h, pyRound2, roundHalfEven]
    rw [show (333:ℚ)/1000 * 100 = 333/10 by norm_num, hfloor]
    rw [if_pos (by norm_num)]
    norm_num
  · norm_num

lemma pyRound2_of_int_mul (q : ℚ) (n : ℤ) (hn : 100 * q = (n : ℚ)) :
    pyRound2 q = q := by
  have h100 : q * 100 = (n : ℚ) := by linarith
  rw [pyRound2, h100]
  rw [show roundHalfEven (n : ℚ) = n from by
    rw [roundHalfEven, Int.floor_intCast]
    rw [if_pos (by norm_num)]]
  rw [← h100]
  field_simp

/-- C4 amended: the stored total is the exact sum `mse + ese` whenever the sum
has at most two decimal places; in general the stored total is the sum rounded
to two decimals (`pyRound2`), with no weighting applied. -/
theorem stored_total_two_decimal_exact (mse ese : ℚ)
    (_h1 : 0 ≤ mse) (_h2 : mse ≤ 30) (_h3 : 0 ≤ ese) (_h4 : ese ≤ 70)
    (hdec : ∃ n : ℤ, 100 * (mse + ese) = (n : ℚ)) :
    stored_total mse ese = mse + ese ∧ stored_total mse ese = pyRound2 (mse + ese) := by
  have hct : computed_total mse ese = mse + ese := by
    unfold computed_total
    field_simp
  obtain ⟨n, hn⟩ := hdec
  have hexact : pyRound2 (mse + ese) = mse + ese := pyRound2_of_int_mul _ n hn
  constructor
  · rw [stored_total, hct, hexact]
  · rw [stored_total, hct]

/-- Witness for C4 amended: `mse = 24`, `ese = 56` store the exact total 80. -/
theorem stored_total_two_decimal_exact_witness :
    stored_total 24 56 = 24 + 56 :=
  (stored_total_two_decimal_exact 24 56 (by decide) (by decide) (by decide) (by decide)
    ⟨8000, by norm_num⟩).1

lemma mark_update_one_find (marks : List MarkRecord) (sid subj : String)
    (mark : MarkRecord) (hsid : mark.studentId = sid) (hsubj : mark.subjectId = subj)
    (old : MarkRecord)
    (h : marks.find? (fun m => mark_matches m sid subj) = some old) :
    (mark_update_one marks sid subj mark).find? (fun m => mark_matches m sid subj)
      = some (apply_mark_set old mark) := by
  induction marks with
  | nil => simp at h
  | cons m rest ih =>
    by_cases hm : mark_matches m sid subj = true
    · rw [List.find?_cons_of_pos (p := fun x : MarkRecord => mark_matches x sid subj) _ hm] at h
      have hold : m = old := Option.some.inj h
      rw [mark_update_one, if_pos hm,
        List.find?_cons_of_pos (p := fun x : MarkRecord => mark_matches x sid subj) _
          (by simp [mark_matches, apply_mark_set, hsid, hsubj]),
        hold]
    · rw [List.find?_cons_of_neg (p := fun x : MarkRecord => mark_matches x sid subj) _ hm] at h
      rw [mark_update_one, if_neg hm,
        List.find?_cons_of_neg (p := fun x : MarkRecord => mark_matches x sid subj) _ hm]
      exact ih h

/-- C9: when a mark for the `(student, subject)` pair already exists,
`add_or_update_marks` keeps the existing `createdAt` and replaces all other
fields with the freshly computed values. -/
theorem upsert_preserves_createdAt (marks : List MarkRecord)
    (student_id subject_id : String) (mse ese : ℚ) (now : ℕ) (old : MarkRecord)
    (h : marks.find? (fun m => mark_matches m student_id subject_id) = some old) :
    (add_or_update_marks marks student_id subject_id mse ese now).find?
        (fun m => mark_matches m student_id subject_id)
      = some { studentId := student_id, subjectId := subject_id,
               mseMarks := mse, eseMarks := ese,
               total := stored_total mse ese,
               grade := calculate_grade (computed_total mse ese),
               createdAt := old.createdAt, updatedAt := now } :=
  mark_update_one_find marks student_id subject_id _ rfl rfl old h

/-- Witness for C9: updating an existing mark keeps its creation time 5 and
gets update time 9. -/
theorem upsert_preserves_createdAt_witness :
    (add_or_update_marks [⟨"21AIML001", "ML3001", 10, 20, 30, "F", 5, 5⟩]
        "21AIML001" "ML3001" 24 56 9).find?
      (fun m => mark_matches m "21AIML001" "ML3001")
      = some { studentId := "21AIML001", subjectId := "ML3001",
               mseMarks := 24, eseMarks := 56,
               total := stored_total 24 56,
               grade := calculate_grade (computed_total 24 56),
               createdAt := 5, updatedAt := 9 } :=
  upsert_preserves_createdAt [⟨"21AIML001", "ML3001", 10, 20, 30, "F", 5, 5⟩]
    "21AIML001" "ML3001" 24 56 9 ⟨"21AIML001", "ML3001", 10, 20, 30, "F", 5, 5⟩ (by rfl)

/-! ### The bookstore login (`bookstore.py`)

`login` on POST looks up a user document whose `email` and `password` both
equal the submitted form values (plaintext string equality), sets the session
user to that user's name on success, and re-renders the login page with the
session untouched otherwise. -/

/-- A `users` document of the bookstore. -/
structure BUser where
  name : String
  email : String
  password : String
  deriving DecidableEq

/-- The response of the login route. -/
inductive LoginResponse
  | redirectHome
  | renderLogin
  deriving DecidableEq

/-- `mongo.db.users.find_one({'email': email, 'password': password})`. -/
def login_find (users : List BUser) (email password : String) : Option BUser :=
  users.find? fun u => u.email == email && u.password == password

/-- From `bookstore.py`, route `login`, POST branch: returns the session user
after the request together with the response. -/
def login_post (users : List BUser) (email password : String)
    (sess : Option String) : Option String × LoginResponse :=
  match login_find users email password with
  | some user => (some user.name, .redirectHome)
  | none => (sess, .renderLogin)

/-- C10: the POST login authenticates exactly when some stored user matches
both submitted fields by plain string equality; on success the session user
becomes the found user's name, otherwise the session is unchanged and the
login page is re-rendered. -/
theorem login_auth_characterization (users : List BUser) (email password : String)
    (sess : Option String) :
    ((login_post users email password sess).2 = .redirectHome ↔
      ∃ u ∈ users, u.email = email ∧ u.password = password) ∧
    ((login_post users email password sess).2 = .renderLogin →
      (login_post users email password sess).1 = sess) ∧
    (∀ u, login_find users email password = some u →
      (login_post users email password sess).1 = some u.name) := by
  refine ⟨?_, ?_, ?_⟩
  · cases hf : login_find users email password with
    | some u =>
      have hu : u ∈ users := List.mem_of_find?_eq_some hf
      have hp := List.find?_some hf
      simp only [Bool.and_eq_true, beq_iff_eq] at hp
      constructor
      · intro _
        exact ⟨u, hu, hp⟩
      · intro _
        simp [login_post, hf]
    | none =>
      have hnone : ∀ u ∈ users, ¬ (u.email == email && u.password == password) = true :=
        List.find?_eq_none.mp hf
      constructor
      · intro habs
        have h2 : (login_post users email password sess).2 = .renderLogin := by
          simp [login_post, hf]
        rw [habs] at h2
        exact absurd h2 (by decide)
      · rintro ⟨u, hu, he, hpw⟩
        exact absurd (by simp [he, hpw] : (u.email == email && u.password == password) = true)
          (hnone u hu)
  · intro hr
    rcases hf : login_find users email password with _ | u
    · simp [login_post, hf]
    · rw [show (login_post users email password sess).2 = .redirectHome from by
        simp [login_post, hf]] at hr
      exact absurd hr (by decide)
  · intro u hf
    simp [login_post, hf]

/-- Witness for C10: a matching user authenticates and the session becomes
that user's name. -/
theorem login_auth_characterization_witness :
    (login_post [⟨"Alice", "a@b.com", "pw1"⟩] "a@b.com" "pw1" none).1 = some "Alice" :=
  (login_auth_characterization [⟨"Alice", "a@b.com", "pw1"⟩] "a@b.com" "pw1" none).2.2
    ⟨"Alice", "a@b.com", "pw1"⟩ (by rfl)

end VitResults
